import Mathlib

/-!
Shallow embedding of the HamuRafael/tracker repository (a minimal P2P
file-sharing tracker and peer, Python).  The tracker keeps a dict
`peers : peer_id -> {ip, port, files, last_keepalive, score}` and handles
one line-oriented command per connection; the peer serves byte-range
file reads and drives a chunked download.

Python dicts are embedded as association lists in insertion order;
`time.time()` timestamps are `Nat`; Python `int` is `Int`; a handler
returning no reply (an exception swallowed by the `except` clause) is
`none` in the response position.
-/

namespace Tracker

/-- One registry record: the value of `self.peers[peer_id]` in
`tracker.py` (`ip`, `port`, `files`, `last_keepalive`, `score`).
`last_keepalive` is `Option Nat` because the eviction loop reads it with
`info.get("last_keepalive", None)`. -/
structure PeerInfo where
  ip : String
  port : Int
  files : List String
  last_keepalive : Option Nat
  score : Int
deriving Repr, DecidableEq

/-- The tracker's `self.peers` dict, as an association list in insertion
order. -/
abbrev Registry := List (String × PeerInfo)

/-- Dict lookup `peers[pid]` / `pid in peers`. -/
def lookupPeer : Registry → String → Option PeerInfo
  | [], _ => none
  | (k, v) :: rest, pid => if k = pid then some v else lookupPeer rest pid

/-- Dict assignment `peers[pid] = info`: replaces the entry in place if
the key exists, otherwise appends (Python dicts keep insertion order). -/
def setPeer : Registry → String → PeerInfo → Registry
  | [], pid, info => [(pid, info)]
  | (k, v) :: rest, pid, info =>
      if k = pid then (pid, info) :: rest else (k, v) :: setPeer rest pid info

/-- Dict deletion `del peers[pid]` (keys are unique in a dict, so
removing the first match is removal). -/
def erasePeer : Registry → String → Registry
  | [], _ => []
  | (k, v) :: rest, pid => if k = pid then rest else (k, v) :: erasePeer rest pid

/-- Python `str.upper()` for ASCII text, applied char by char.
(`String.toUpper` computes the same map, but through a position-based
recursion; this form is kernel-reducible.) -/
def pyUpper (s : String) : String := String.mk (s.toList.map Char.toUpper)

/-! ### Python `int(str)` on a whitespace-free token

`tracker.py` calls `int(parts[2])` (and `int(peer_port)`); tokens from
`str.split()` contain no whitespace.  Python accepts an optional sign,
then ASCII digits with single underscores allowed between digits;
anything else raises `ValueError`.  A parse failure is `none` (the
exception path). -/

/-- Digit run after the first digit: digits, with single underscores
allowed only between digits. `acc` is the value read so far. -/
def digitsCore : List Char → Nat → Option Nat
  | [], acc => some acc
  | c :: rest, acc =>
      if c.isDigit then digitsCore rest (acc * 10 + (c.toNat - 48))
      else if c = Char.ofNat 95 then
        match rest with
        | [] => none
        | d :: rest2 =>
            if d.isDigit then digitsCore rest2 (acc * 10 + (d.toNat - 48))
            else none
      else none

/-- Unsigned part of Python `int()`: at least one leading digit. -/
def pyParseNat : List Char → Option Nat
  | [] => none
  | c :: rest => if c.isDigit then digitsCore rest (c.toNat - 48) else none

/-- Python `int(token)` for a token with no whitespace: optional sign
then digits; `none` models the `ValueError` raise. -/
def pyParseInt (s : String) : Option Int :=
  match s.toList with
  | [] => none
  | c :: rest =>
      if c = '+' then (pyParseNat rest).map Int.ofNat
      else if c = '-' then (pyParseNat rest).map (fun n => -(Int.ofNat n))
      else (pyParseNat (c :: rest)).map Int.ofNat

/-! ### The SEARCH / GET_PEERS response strings -/

/-- The `result` list the SEARCH branch builds: every
`(pid, info["ip"], info["port"])` with `filename in info["files"]`,
in registry order. -/
def searchResult (st : Registry) (filename : String) : List (String × String × Int) :=
  st.filterMap fun kv =>
    if filename ∈ kv.2.files then some (kv.1, kv.2.ip, kv.2.port) else none

/-- The SEARCH response text: header plus one `pid ip port` line per hit,
or `SEARCH_RESULT 0` when the result list is empty. -/
def searchResponse (st : Registry) (filename : String) : String :=
  let result := searchResult st filename
  if result.isEmpty then "SEARCH_RESULT 0\n"
  else
    "SEARCH_RESULT " ++ toString result.length ++ "\n" ++
      String.join (result.map fun r => r.1 ++ " " ++ r.2.1 ++ " " ++ toString r.2.2 ++ "\n")

/-- A single-quote character, for Python's `repr` of a string list. -/
def squote : String := String.singleton (Char.ofNat 39)

/-- Python `str(file_list)` for a list of simple names:
`['a.txt', 'b.txt']`. -/
def pyListRepr (xs : List String) : String :=
  "[" ++ String.intercalate ", " (xs.map fun s => squote ++ s ++ squote) ++ "]"

/-- The GET_PEERS response text of `tracker.py` (the variant with
scores): header plus one line per record. -/
def peerListResponse (st : Registry) : String :=
  "PEER_LIST " ++ toString st.length ++ "\n" ++
    String.join (st.map fun kv =>
      kv.1 ++ " " ++ kv.2.ip ++ " " ++ toString kv.2.port ++ " " ++
        pyListRepr kv.2.files ++ " Score=" ++ toString kv.2.score ++ "\n")

/-! ### `Tracker.handle_client`

One call = one connection.  Input is the token list `parts` of the
received line (`data.split()`; the all-whitespace line returns before
splitting, so `parts = []` stands for that early return) and the current
time `now` (`time.time()`).  Output is the registry afterwards and the
reply sent, `none` when an exception left the handler with no reply. -/

def handle_client (st : Registry) (now : Nat) (parts : List String) :
    Registry × Option String :=
  match parts with
  | [] => (st, none)
  | c :: _ =>
    let cmd := pyUpper c
    if cmd = "REGISTER" then
      -- REGISTER <peer_id> <ip> <port> [files]
      if 4 ≤ parts.length then
        let peer_id := parts.getD 1 ""
        let peer_ip := parts.getD 2 ""
        let peer_port := parts.getD 3 ""
        let file_list :=
          if parts.length = 5 then
            if parts.getD 4 "" ≠ "" then (parts.getD 4 "").splitOn "," else []
          else []
        match lookupPeer st peer_id with
        | some _ => (st, some "ALREADY_REGISTERED\n")
        | none =>
            match pyParseInt peer_port with
            | none => (st, none)  -- int(peer_port) raised; no reply sent
            | some p =>
                (setPeer st peer_id
                  { ip := peer_ip, port := p, files := file_list
                    last_keepalive := some now, score := 0 },
                 some "REGISTER_OK\n")
      else (st, some "ERROR Uso: REGISTER <peer_id> <ip> <port> [files]\n")
    else if cmd = "UNREGISTER" then
      if parts.length = 2 then
        let peer_id := parts.getD 1 ""
        match lookupPeer st peer_id with
        | some _ => (erasePeer st peer_id, some "UNREGISTER_OK\n")
        | none => (st, some "ERROR Peer nao encontrado\n")
      else (st, some "ERROR Uso: UNREGISTER <peer_id>\n")
    else if cmd = "SEARCH" then
      if parts.length = 2 then
        (st, some (searchResponse st (parts.getD 1 "")))
      else (st, some "ERROR Uso: SEARCH <filename>\n")
    else if cmd = "GET_PEERS" then
      (st, some (peerListResponse st))
    else if cmd = "KEEPALIVE" then
      if parts.length = 2 then
        let peer_id := parts.getD 1 ""
        match lookupPeer st peer_id with
        | some info =>
            (setPeer st peer_id { info with last_keepalive := some now },
             some "KEEPALIVE_OK\n")
        | none => (st, some "ERROR Peer nao encontrado para KEEPALIVE\n")
      else (st, some "ERROR Uso: KEEPALIVE <peer_id>\n")
    else if cmd = "INCREMENT_SCORE" then
      if parts.length = 3 then
        -- delta = int(parts[2]) runs before the lookup, so a bad token
        -- raises and nothing is sent regardless of the peer id
        match pyParseInt (parts.getD 2 "") with
        | none => (st, none)
        | some d =>
            let peer_id := parts.getD 1 ""
            match lookupPeer st peer_id with
            | some info =>
                (setPeer st peer_id { info with score := info.score + d },
                 some "INCREMENT_OK\n")
            | none => (st, some "ERROR Peer nao encontrado para INCREMENT_SCORE\n")
      else (st, some "ERROR Uso: INCREMENT_SCORE <peer_id> <delta>\n")
    else (st, some "ERROR Comando desconhecido\n")

/-! ### `Tracker.remove_inactive_peers` — one reaper pass

The loop body under the lock: collect every `pid` whose `last_keepalive`
is truthy and with `now - last_k > timeout`, then delete them.  Python's
`if not last_k: continue` skips both a missing timestamp and a
timestamp equal to `0` (float falsiness).  `now - t` is truncated `Nat`
subtraction, which agrees with the Python real-valued comparison
`now - last_k > timeout` whenever `t > now` too (both sides keep the
record). -/
def remove_inactive_pass (st : Registry) (now timeout : Nat) : Registry :=
  st.filter fun kv =>
    match kv.2.last_keepalive with
    | none => true
    | some t => if t = 0 then true else decide (¬ (now - t > timeout))

/-! ### Tracker operation sequences

The registry evolves only through `handle_client` connections and
reaper passes; this wraps both as one step type so properties over
"every sequence of tracker operations" can be stated. -/

/-- One registry-mutating event: a client connection handled at time
`now` with token list `parts`, or one reaper pass. -/
inductive TrackerOp
  | client (now : Nat) (parts : List String)
  | evict (now timeout : Nat)
deriving Repr, DecidableEq

/-- The registry after one operation. -/
def stepOp (st : Registry) : TrackerOp → Registry
  | .client now parts => (handle_client st now parts).1
  | .evict now timeout => remove_inactive_pass st now timeout

/-- The registry after a whole sequence of operations. -/
def runOps (st : Registry) (ops : List TrackerOp) : Registry :=
  ops.foldl stepOp st

/-- `true` when the operation is not an INCREMENT_SCORE command carrying
a parseable negative delta (the shape `handle_client` dispatches on:
three tokens whose first upper-cases to `INCREMENT_SCORE`). -/
def opNonneg : TrackerOp → Bool
  | .client _ parts =>
      if parts.length = 3 ∧ pyUpper (parts.getD 0 "") = "INCREMENT_SCORE" then
        match pyParseInt (parts.getD 2 "") with
        | some d => decide (0 ≤ d)
        | none => true
      else true
  | .evict _ _ => true

/-- Every record's score in the registry is nonnegative. -/
def allScoresNonneg (st : Registry) : Bool :=
  st.all fun kv => decide (0 ≤ kv.2.score)

/-- The score of a record, when present. -/
def scoreOf (st : Registry) (pid : String) : Option Int :=
  (lookupPeer st pid).map PeerInfo.score

/-- The command shapes `handle_client` rejects outright: REGISTER with
fewer than 4 tokens; UNREGISTER, SEARCH or KEEPALIVE with a token count
other than 2; INCREMENT_SCORE with a token count other than 3; or an
unknown verb. -/
def isRejectedShape (parts : List String) : Bool :=
  match parts with
  | [] => false
  | c :: _ =>
    let cmd := pyUpper c
    if cmd = "REGISTER" then decide (parts.length < 4)
    else if cmd = "UNREGISTER" then decide (parts.length ≠ 2)
    else if cmd = "SEARCH" then decide (parts.length ≠ 2)
    else if cmd = "GET_PEERS" then false
    else if cmd = "KEEPALIVE" then decide (parts.length ≠ 2)
    else if cmd = "INCREMENT_SCORE" then decide (parts.length ≠ 3)
    else true

/-- Every recorded keepalive timestamp in the registry is positive (as
every real `time.time()` value is). -/
def allKeepalivesPos (st : Registry) : Bool :=
  st.all fun kv =>
    match kv.2.last_keepalive with
    | none => true
    | some t => decide (0 < t)

end Tracker

namespace Peer

/-- Value of a digit string read left to right, as in Python
`int(''.join(digits))`. -/
def natOfDigits (ds : List Char) : Nat :=
  ds.foldl (fun acc c => acc * 10 + (c.toNat - 48)) 0

/-- `Peer.compute_port_from_id`: keep every digit of the id, in order;
`6000 + int(that digit string)` when nonempty, else `6000`. -/
def compute_port_from_id (peer_id : String) : Nat :=
  let numeric_part := peer_id.toList.filter Char.isDigit
  if numeric_part.isEmpty then 6000 else 6000 + natOfDigits numeric_part

/-- The maximal run of digits at the END of the id (the spec's "numeric
suffix of the peer id"); used only to compare the spec's wording with
`compute_port_from_id`. -/
def numericSuffixDigits (peer_id : String) : List Char :=
  (peer_id.toList.reverse.takeWhile Char.isDigit).reverse

/-- Modelled from the spec: "Peer listening port is derived
deterministically as `6000 + (numeric suffix of peer id)`, defaulting to
`6000` if the id has no digits."  This is the spec's wording, kept for
comparison against `compute_port_from_id` (the source). -/
def spec_port_from_id (peer_id : String) : Nat :=
  let d := numericSuffixDigits peer_id
  if d.isEmpty then 6000 else 6000 + natOfDigits d

/-- `Peer.format_peer_id`: uppercase ids already starting with `PEER`,
otherwise put `PEER` in front. -/
def format_peer_id (pid_str : String) : String :=
  if (Tracker.pyUpper pid_str).startsWith "PEER" then Tracker.pyUpper pid_str
  else "PEER" ++ pid_str

/-! ### `Peer.request_file` — the chunk partition

Step 2 of `request_file`: `chunk_size = file_size // num_connections`;
thread `i` gets `start = i * chunk_size` and
`end = file_size if i == num_connections - 1 else start + chunk_size`. -/

/-- The `(start, end)` pairs handed to the `num_connections` download
threads, in thread order. -/
def chunk_ranges (file_size num_connections : Nat) : List (Nat × Nat) :=
  let chunk_size := file_size / num_connections
  (List.range num_connections).map fun i =>
    (i * chunk_size,
     if i = num_connections - 1 then file_size else i * chunk_size + chunk_size)

/-! ### `Peer._download_chunk` — the receive loop

The socket is modelled by the number of bytes the remote will deliver
before closing (`avail`).  Each `recv(min(4096, total - received))`
returns `min` of the request and what is still available; an empty
result (`avail` exhausted, connection closed) breaks the loop.  The
loop never retries and never raises on a short read. -/

def download_chunk_recv (total received avail : Nat) : Nat :=
  if received < total then
    if min (min 4096 (total - received)) avail = 0 then received
    else
      download_chunk_recv total (received + min (min 4096 (total - received)) avail)
        (avail - min (min 4096 (total - received)) avail)
  else received
termination_by total - received
decreasing_by omega

/-- Outcome of one `_download_chunk` task for range `(start, end)` when
the remote delivers `avail` bytes: the byte count received and written
at offset `start`.  The task prints success and returns either way. -/
def download_chunk (range : Nat × Nat) (avail : Nat) : Nat :=
  download_chunk_recv (range.2 - range.1) 0 avail

/-- `Peer.request_file`, network modelled by the per-task delivered byte
counts `avail`: `none` when `file_size <= 0` (reported "não encontrado",
no download); otherwise the call joins all chunk tasks and reports
completion, returning the bytes each task received.  No task outcome is
inspected. -/
def request_file (file_size : Nat) (num_connections : Nat) (avail : List Nat) :
    Option (List Nat) :=
  if file_size ≤ 0 then none
  else some ((chunk_ranges file_size num_connections).zipWith download_chunk avail)

/-! ### `Peer._handle_file_download_request`

The serving side of DOWNLOAD.  The peer's shared list is `files`; the
disk is an association list `filename -> byte list`.  The reply is
either the raw bytes written to the socket (possibly `b""`) or the
error line; the second component is the `delta` of the
`_increment_score` report issued after a non-empty send. -/

/-- Raw bytes sent, or the error text. -/
inductive DlResp
  | bytesSent (data : List Nat)
  | err (msg : String)
deriving Repr, DecidableEq

/-- `os.path.getsize` / `open(...).read` source: filename to content. -/
abbrev Disk := List (String × List Nat)

def diskLookup : Disk → String → Option (List Nat)
  | [], _ => none
  | (k, v) :: rest, f => if k = f then some v else diskLookup rest f

def handle_file_download_request (files : List String) (disk : Disk)
    (filename : String) (start endp : Int) : DlResp × Option Int :=
  match diskLookup disk filename with
  | some content =>
      if filename ∈ files then
        let file_size : Int := content.length
        let start2 := if start < 0 then 0 else start
        let end2 := if endp > file_size then file_size else endp
        let length := end2 - start2
        if length ≤ 0 then (.bytesSent [], none)
        else
          (.bytesSent ((content.drop start2.toNat).take length.toNat), some length)
      else (.err "ERROR FILE NOT FOUND\n", none)
  | none => (.err "ERROR FILE NOT FOUND\n", none)

end Peer

/-! ### Concrete registries and records used as witness inputs -/

/-- A registry in which `PEER1` is already registered holding `a.txt`. -/
def c1Reg : Tracker.Registry :=
  [("PEER1", { ip := "1.1.1.1", port := 7001, files := ["a.txt"],
               last_keepalive := some 100, score := 0 })]

/-- A record whose last keepalive (time 939) is 61 seconds old at time
1000. -/
def c6Old : Tracker.PeerInfo :=
  { ip := "1.1.1.1", port := 7001, files := [], last_keepalive := some 939,
    score := 0 }

/-- A record whose last keepalive (time 941) is 59 seconds old at time
1000. -/
def c6Fresh : Tracker.PeerInfo :=
  { ip := "1.1.1.2", port := 7002, files := [], last_keepalive := some 941,
    score := 0 }

/-- A two-record registry for the eviction witness. -/
def c6Reg : Tracker.Registry := [("OLD", c6Old), ("FRESH", c6Fresh)]

/-- A one-record registry in which `A` offers `x.txt`. -/
def c7Reg : Tracker.Registry :=
  [("A", { ip := "1.1.1.1", port := 7001, files := ["x.txt"],
           last_keepalive := some 100, score := 0 })]

/-- A one-record registry with score `0`, for the score counterexample. -/
def c3Reg : Tracker.Registry :=
  [("PEER1", { ip := "1.1.1.1", port := 7001, files := [],
               last_keepalive := some 100, score := 0 })]

/-- A register followed by two nonnegative score increments (100 then
250), the spec's accumulation example. -/
def c3Ops : List Tracker.TrackerOp :=
  [.client 100 ["REGISTER", "PEER1", "1.1.1.1", "7001"],
   .client 101 ["INCREMENT_SCORE", "PEER1", "100"],
   .client 102 ["INCREMENT_SCORE", "PEER1", "250"]]

/-! ## Helper lemmas about the registry's dict operations -/


namespace Tracker

theorem lookupPeer_mem {st : Registry} {pid : String} {info : PeerInfo}
    (h : lookupPeer st pid = some info) : (pid, info) ∈ st := by
  induction st with
  | nil => simp [lookupPeer] at h
  | cons kv rest ih =>
      obtain ⟨k, v⟩ := kv
      by_cases hk : k = pid
      · subst hk
        simp [lookupPeer] at h
        simp [h]
      · simp [lookupPeer, hk] at h
        exact List.mem_cons_of_mem _ (ih h)

theorem lookupPeer_isSome_of_mem {st : Registry} {pid : String} {info : PeerInfo}
    (h : (pid, info) ∈ st) : (lookupPeer st pid).isSome = true := by
  induction st with
  | nil => simp at h
  | cons kv rest ih =>
      obtain ⟨k, v⟩ := kv
      rcases List.mem_cons.mp h with h1 | h1
      · obtain ⟨hk, _⟩ := Prod.mk.injEq .. ▸ h1
        simp [lookupPeer, hk.symm]
      · by_cases hk : k = pid
        · simp [lookupPeer, hk]
        · simpa [lookupPeer, hk] using ih h1

theorem lookupPeer_eq_none {st : Registry} {pid : String}
    (h : lookupPeer st pid = none) : ∀ info, (pid, info) ∉ st := by
  intro info hmem
  have := lookupPeer_isSome_of_mem hmem
  rw [h] at this
  simp at this

theorem lookupPeer_eq_some_of_mem_nodup {st : Registry} {pid : String}
    {info : PeerInfo} (hnd : (st.map Prod.fst).Nodup) (h : (pid, info) ∈ st) :
    lookupPeer st pid = some info := by
  induction st with
  | nil => simp at h
  | cons kv rest ih =>
      obtain ⟨k, v⟩ := kv
      simp only [List.map_cons, List.nodup_cons] at hnd
      rcases List.mem_cons.mp h with h1 | h1
      · obtain ⟨hk, hv⟩ := Prod.mk.injEq .. ▸ h1
        simp [lookupPeer, hk.symm, hv.symm]
      · by_cases hk : k = pid
        · exfalso
          exact hnd.1 (hk ▸ List.mem_map.mpr ⟨(pid, info), h1, rfl⟩)
        · simpa [lookupPeer, hk] using ih hnd.2 h1

theorem mem_setPeer {st : Registry} {pid q : String} {info v : PeerInfo}
    (h : (q, v) ∈ setPeer st pid info) : (q, v) ∈ st ∨ (q, v) = (pid, info) := by
  induction st with
  | nil => simpa [setPeer] using h
  | cons kv rest ih =>
      obtain ⟨k, w⟩ := kv
      by_cases hk : k = pid
      · simp only [setPeer, if_pos hk] at h
        rcases List.mem_cons.mp h with h1 | h1
        · exact Or.inr h1
        · exact Or.inl (List.mem_cons_of_mem _ h1)
      · simp only [setPeer, if_neg hk] at h
        rcases List.mem_cons.mp h with h1 | h1
        · exact Or.inl (List.mem_cons.mpr (Or.inl h1))
        · rcases ih h1 with h2 | h2
          · exact Or.inl (List.mem_cons_of_mem _ h2)
          · exact Or.inr h2

theorem lookupPeer_setPeer_self (st : Registry) (pid : String) (info : PeerInfo) :
    lookupPeer (setPeer st pid info) pid = some info := by
  induction st with
  | nil => simp [setPeer, lookupPeer]
  | cons kv rest ih =>
      obtain ⟨k, v⟩ := kv
      by_cases hk : k = pid
      · simp [setPeer, hk, lookupPeer]
      · simp [setPeer, hk, lookupPeer, ih]

theorem lookupPeer_setPeer_ne (st : Registry) {pid q : String} (info : PeerInfo)
    (h : q ≠ pid) : lookupPeer (setPeer st pid info) q = lookupPeer st q := by
  have hpq : pid ≠ q := Ne.symm h
  induction st with
  | nil => simp [setPeer, lookupPeer, hpq]
  | cons kv rest ih =>
      obtain ⟨k, v⟩ := kv
      by_cases hk : k = pid
      · subst hk
        simp [setPeer, lookupPeer, hpq]
      · by_cases hq : k = q
        · simp [setPeer, hk, lookupPeer, hq, h]
        · simp [setPeer, hk, lookupPeer, hq, ih]

theorem mem_of_mem_erasePeer {st : Registry} {pid : String} {x : String × PeerInfo}
    (h : x ∈ erasePeer st pid) : x ∈ st := by
  induction st with
  | nil => simp [erasePeer] at h
  | cons kv rest ih =>
      obtain ⟨k, v⟩ := kv
      by_cases hk : k = pid
      · simp only [erasePeer, if_pos hk] at h
        exact List.mem_cons_of_mem _ h
      · simp only [erasePeer, if_neg hk] at h
        rcases List.mem_cons.mp h with h1 | h1
        · exact List.mem_cons.mpr (Or.inl h1)
        · exact List.mem_cons_of_mem _ (ih h1)

theorem lookupPeer_erasePeer_ne (st : Registry) {pid q : String}
    (h : q ≠ pid) : lookupPeer (erasePeer st pid) q = lookupPeer st q := by
  have hpq : pid ≠ q := Ne.symm h
  induction st with
  | nil => simp [erasePeer]
  | cons kv rest ih =>
      obtain ⟨k, v⟩ := kv
      by_cases hk : k = pid
      · subst hk
        simp [erasePeer, lookupPeer, hpq]
      · by_cases hq : k = q
        · simp [erasePeer, hk, lookupPeer, hq, h]
        · simp [erasePeer, hk, lookupPeer, hq, ih]

theorem not_mem_erasePeer_self {st : Registry} {pid : String}
    (hnd : (st.map Prod.fst).Nodup) (info : PeerInfo) :
    (pid, info) ∉ erasePeer st pid := by
  induction st with
  | nil => simp [erasePeer]
  | cons kv rest ih =>
      obtain ⟨k, v⟩ := kv
      simp only [List.map_cons, List.nodup_cons] at hnd
      by_cases hk : k = pid
      · subst hk
        simp only [erasePeer, if_pos rfl]
        intro hmem
        exact hnd.1 (List.mem_map.mpr ⟨(k, info), hmem, rfl⟩)
      · simp only [erasePeer, if_neg hk]
        intro hmem
        rcases List.mem_cons.mp hmem with h1 | h1
        · exact hk (congrArg Prod.fst h1).symm
        · exact ih hnd.2 h1

theorem lookupPeer_filter_some {st : Registry} {p : String × PeerInfo → Bool}
    {pid : String} {info : PeerInfo} (hnd : (st.map Prod.fst).Nodup)
    (h : lookupPeer (st.filter p) pid = some info) :
    lookupPeer st pid = some info := by
  have hmem : (pid, info) ∈ st.filter p := lookupPeer_mem h
  exact lookupPeer_eq_some_of_mem_nodup hnd (List.mem_of_mem_filter hmem)

end Tracker

/-! ## Claim C1 — duplicate REGISTER

The spec says a second REGISTER for the same id succeeds and merges the
file lists.  The handler instead answers `ALREADY_REGISTERED` and leaves
the record untouched: no merge happens. -/

/-- C1 (counterexample): re-registering `PEER1` with file `b.txt` is
rejected with `ALREADY_REGISTERED` and the file list stays `[a.txt]` —
no merge, contradicting "succeeds ... merges the new file list". -/
theorem register_duplicate_merge_counterexample :
    (Tracker.handle_client c1Reg 200
        ["REGISTER", "PEER1", "1.1.1.1", "7001", "b.txt"]).2
      = some "ALREADY_REGISTERED\n"
  ∧ (Tracker.lookupPeer (Tracker.handle_client c1Reg 200
        ["REGISTER", "PEER1", "1.1.1.1", "7001", "b.txt"]).1 "PEER1").map
        Tracker.PeerInfo.files = some ["a.txt"] :=
  ⟨rfl, rfl⟩

/-- C1 (amended): a second REGISTER for an already-present peer id never
creates a second record and preserves the existing score and files, but
it does not merge: the registry is left completely unchanged and the
reply is `ALREADY_REGISTERED`, not a success. -/
theorem register_duplicate_rejected (st : Tracker.Registry) (now : Nat)
    (parts : List String)
    (h4 : 4 ≤ parts.length)
    (hcmd : Tracker.pyUpper (parts.getD 0 "") = "REGISTER")
    (hpresent : (Tracker.lookupPeer st (parts.getD 1 "")).isSome = true) :
    (Tracker.handle_client st now parts).1 = st
  ∧ (Tracker.handle_client st now parts).2 = some "ALREADY_REGISTERED\n" := by
  cases parts with
  | nil => simp at h4
  | cons c rest =>
      simp only [List.getD_cons_zero] at hcmd
      rw [Option.isSome_iff_exists] at hpresent
      obtain ⟨info, hinfo⟩ := hpresent
      have h3 : 3 ≤ rest.length := by
        simp only [List.length_cons] at h4
        omega
      simp only [List.getD_cons_succ, List.getD_eq_getElem?_getD,
        List.getElem?_cons_succ, List.getElem?_cons_zero] at hinfo
      simp [Tracker.handle_client, hcmd, h3, hinfo]

/-- C1 (witness): the amended theorem applied to the concrete duplicate
registration of `PEER1`. -/
theorem register_duplicate_rejected_witness :
    (Tracker.handle_client c1Reg 200
        ["REGISTER", "PEER1", "1.1.1.1", "7001", "b.txt"]).1 = c1Reg
  ∧ (Tracker.handle_client c1Reg 200
        ["REGISTER", "PEER1", "1.1.1.1", "7001", "b.txt"]).2
      = some "ALREADY_REGISTERED\n" :=
  register_duplicate_rejected c1Reg 200
    ["REGISTER", "PEER1", "1.1.1.1", "7001", "b.txt"]
    (by decide) (by decide) (by decide)

/-! ## Claim C9 — port derived from the peer id

`compute_port_from_id` keeps EVERY digit of the id, not just the
trailing ones, so an id whose digits are not all at the end gets a port
different from `6000 + numeric suffix`. -/

/-- C9 (counterexample): for id `PEER1A2` the code returns
`6000 + 12 = 6012`, while `6000 + (numeric suffix) = 6002`. -/
theorem compute_port_not_suffix_counterexample :
    Peer.compute_port_from_id "PEER1A2" = 6012
  ∧ Peer.spec_port_from_id "PEER1A2" = 6002
  ∧ Peer.compute_port_from_id "PEER1A2" ≠ Peer.spec_port_from_id "PEER1A2" := by
  decide

/-- Digits followed by the non-digit tail `REEP`: `takeWhile` keeps
exactly the digits. -/
theorem takeWhile_digits_reep (l : List Char) (h : ∀ c ∈ l, c.isDigit = true) :
    List.takeWhile Char.isDigit (l ++ ['R', 'E', 'E', 'P']) = l := by
  induction l with
  | nil => decide
  | cons c t ih =>
      have hc : c.isDigit = true := h c (List.mem_cons_self c t)
      simp only [List.cons_append, List.takeWhile_cons, hc, if_true]
      rw [ih fun x hx => h x (List.mem_cons_of_mem _ hx)]

/-- C9 (amended): the port is `6000` plus the number formed by
concatenating ALL decimal digits of the id in order; it is exactly
`6000` when the id has no digits, and for a canonical id
`PEER<digits>` (digits only at the end) it coincides with
`6000 + numeric suffix`, i.e. with the spec's reading. -/
theorem compute_port_from_id_spec (s : String) (ds : List Char) :
    ((∀ c ∈ s.toList, c.isDigit = false) → Peer.compute_port_from_id s = 6000)
  ∧ (ds ≠ [] → (∀ c ∈ ds, c.isDigit = true) →
       Peer.compute_port_from_id ("PEER" ++ String.mk ds)
           = 6000 + Peer.natOfDigits ds
     ∧ Peer.compute_port_from_id ("PEER" ++ String.mk ds)
           = Peer.spec_port_from_id ("PEER" ++ String.mk ds)) := by
  constructor
  · intro hnd
    have hfil : s.toList.filter Char.isDigit = [] := by
      rw [List.filter_eq_nil_iff]
      intro c hc
      simp [hnd c hc]
    unfold Peer.compute_port_from_id
    rw [hfil]
    rfl
  · intro hne hds
    have hlist : ("PEER" ++ String.mk ds).toList = 'P' :: 'E' :: 'E' :: 'R' :: ds := by
      simp [String.toList]
    have hfil : ('P' :: 'E' :: 'E' :: 'R' :: ds).filter Char.isDigit = ds := by
      have hself : ds.filter Char.isDigit = ds := List.filter_eq_self.mpr hds
      rw [List.filter_cons_of_neg (by decide), List.filter_cons_of_neg (by decide),
        List.filter_cons_of_neg (by decide), List.filter_cons_of_neg (by decide),
        hself]
    have hrevall : ∀ c ∈ ds.reverse, c.isDigit = true := fun c hc =>
      hds c (List.mem_reverse.mp hc)
    have hrev : ('P' :: 'E' :: 'E' :: 'R' :: ds).reverse
        = ds.reverse ++ ['R', 'E', 'E', 'P'] := by
      simp
    have hsfx : Peer.numericSuffixDigits ("PEER" ++ String.mk ds) = ds := by
      unfold Peer.numericSuffixDigits
      rw [hlist, hrev, takeWhile_digits_reep ds.reverse hrevall,
        List.reverse_reverse]
    have hfil2 : ("PEER" ++ String.mk ds).toList.filter Char.isDigit = ds := by
      rw [hlist, hfil]
    refine ⟨?_, ?_⟩
    · unfold Peer.compute_port_from_id
      rw [hfil2]
      simp [hne]
    · unfold Peer.compute_port_from_id Peer.spec_port_from_id
      rw [hfil2, hsfx]

/-- C9 (witness): the amended theorem at an id without digits and at the
canonical id `PEER42`. -/
theorem compute_port_from_id_spec_witness :
    Peer.compute_port_from_id "ABC" = 6000
  ∧ Peer.compute_port_from_id "PEER42" = 6042 := by
  refine ⟨(compute_port_from_id_spec "ABC" ['4', '2']).1 (by decide), ?_⟩
  have h := ((compute_port_from_id_spec "ABC" ['4', '2']).2 (by decide) (by decide)).1
  exact h

/-! ## Claim C10 — INCREMENT_SCORE with an unparseable delta

`delta = int(parts[2])` runs before any reply is sent; on a bad token it
raises, the handler logs and closes, and nothing is sent or mutated. -/

/-- C10: an INCREMENT_SCORE command with exactly three tokens whose
delta token does not parse as an integer gets NO response at all and
leaves the registry unchanged. -/
theorem increment_score_bad_delta (st : Tracker.Registry) (now : Nat)
    (c pid dtok : String)
    (hc : Tracker.pyUpper c = "INCREMENT_SCORE")
    (hbad : Tracker.pyParseInt dtok = none) :
    (Tracker.handle_client st now [c, pid, dtok]).1 = st
  ∧ (Tracker.handle_client st now [c, pid, dtok]).2 = none := by
  simp [Tracker.handle_client, hc, hbad]

/-- C10 (witness): the theorem at the concrete command
`INCREMENT_SCORE PEER1 abc` on the empty registry. -/
theorem increment_score_bad_delta_witness :
    (Tracker.handle_client [] 200 ["INCREMENT_SCORE", "PEER1", "abc"]).1 = []
  ∧ (Tracker.handle_client [] 200 ["INCREMENT_SCORE", "PEER1", "abc"]).2 = none :=
  increment_score_bad_delta [] 200 "INCREMENT_SCORE" "PEER1" "abc"
    (by decide) (by decide)

/-! ## Claim C2 — short chunk reads are silently terminal

`_download_chunk` reads until `end - start` bytes arrive OR the socket
closes early; the early close just breaks the loop, the accumulated
bytes are written, success is printed, and `request_file` joins all
tasks and prints "Download ... concluído" without inspecting any
outcome. -/

/-- The receive loop delivers exactly `min total avail` bytes: when the
connection closes after `avail < total` bytes it stops there — one pass
with no retry — and when enough bytes are available it stops at
`total`. -/
theorem download_chunk_recv_min (k : Nat) :
    ∀ total received avail, total - received ≤ k → received ≤ total →
      Peer.download_chunk_recv total received avail = min total (received + avail) := by
  induction k with
  | zero =>
      intro total received avail hk h
      have heq : total = received := by omega
      rw [Peer.download_chunk_recv, if_neg (by omega)]
      omega
  | succ k ih =>
      intro total received avail hk h
      rw [Peer.download_chunk_recv]
      by_cases hlt : received < total
      · rw [if_pos hlt]
        by_cases hz : min (min 4096 (total - received)) avail = 0
        · rw [if_pos hz]
          omega
        · rw [if_neg hz]
          rw [ih total (received + min (min 4096 (total - received)) avail)
            (avail - min (min 4096 (total - received)) avail) (by omega) (by omega)]
          omega
      · rw [if_neg hlt]
        omega

/-- C2: with a positive file size, `request_file` always reports
completion (`some`), and each chunk task ends having received exactly
`min (range length) (bytes the remote delivered)` — a task whose
connection closes early keeps its short byte count with no retry and
raises no failure, and the outer call still completes. -/
theorem request_file_short_chunk (file_size N : Nat) (avail : List Nat)
    (h : 0 < file_size) :
    Peer.request_file file_size N avail
      = some ((Peer.chunk_ranges file_size N).zipWith
          (fun r a => min (r.2 - r.1) a) avail) := by
  unfold Peer.request_file
  rw [if_neg (by omega)]
  have hfun : Peer.download_chunk = fun (r : Nat × Nat) (a : Nat) => min (r.2 - r.1) a := by
    funext r a
    unfold Peer.download_chunk
    rw [download_chunk_recv_min (r.2 - r.1) (r.2 - r.1) 0 a (by omega) (by omega)]
    omega
  rw [hfun]

/-- C2 (witness): a 10-byte file fetched over two connections where the
second connection closes after 2 of its 5 bytes; the download still
completes. -/
theorem request_file_short_chunk_witness :
    Peer.request_file 10 2 [5, 2]
      = some ((Peer.chunk_ranges 10 2).zipWith (fun r a => min (r.2 - r.1) a) [5, 2]) :=
  request_file_short_chunk 10 2 [5, 2] (by decide)

/-! ## Claim C4 — the chunk partition covers the file exactly -/

/-- The `i`-th thread's range, unfolded. -/
theorem chunk_ranges_getD (S N i : Nat) (hi : i < N) :
    (Peer.chunk_ranges S N).getD i (0, 0)
      = (i * (S / N), if i = N - 1 then S else i * (S / N) + S / N) := by
  unfold Peer.chunk_ranges
  rw [List.getD_eq_getElem?_getD, List.getElem?_map, List.getElem?_range hi]
  rfl

/-- Sum of a map over `List.range` whose values are all `c`. -/
theorem sum_map_range_const (c : Nat) (f : Nat → Nat) :
    ∀ m, (∀ i, i < m → f i = c) → ((List.range m).map f).sum = m * c := by
  intro m
  induction m with
  | zero => simp
  | succ m ih =>
      intro h
      rw [List.range_succ, List.map_append, List.sum_append]
      rw [ih fun i hi => h i (by omega)]
      simp [h m (by omega)]
      ring

/-- The chunk lengths add up to the whole file size. -/
theorem chunk_ranges_sum (S N : Nat) (hN : 1 ≤ N) :
    ((Peer.chunk_ranges S N).map (fun r => r.2 - r.1)).sum = S := by
  cases N with
  | zero => omega
  | succ m =>
      unfold Peer.chunk_ranges
      rw [List.map_map, List.range_succ, List.map_append, List.sum_append]
      have hfront : ((List.range m).map
          ((fun (r : Nat × Nat) => r.2 - r.1) ∘ fun i =>
            (i * (S / (m + 1)),
             if i = m + 1 - 1 then S else i * (S / (m + 1)) + S / (m + 1)))).sum
          = m * (S / (m + 1)) := by
        apply sum_map_range_const
        intro i hi
        dsimp only [Function.comp]
        rw [if_neg (by omega)]
        generalize i * (S / (m + 1)) = t
        generalize S / (m + 1) = c
        omega
      rw [hfront]
      dsimp only [List.map_cons, List.map_nil, List.sum_cons, List.sum_nil,
        Function.comp]
      rw [if_pos (by omega)]
      have h1 : S / (m + 1) * (m + 1) ≤ S := Nat.div_mul_le_self S (m + 1)
      have h2 : m * (S / (m + 1)) ≤ S / (m + 1) * (m + 1) := by
        calc m * (S / (m + 1)) = S / (m + 1) * m := by ring
        _ ≤ S / (m + 1) * (m + 1) := Nat.mul_le_mul_left _ (by omega)
      omega

/-- C4: for `S > 0` and `N ≥ 1` the partition built by `request_file`
has exactly `N` ranges; every non-final range has length `S / N`; the
ranges are pairwise disjoint (each ends before the next begins); a byte
offset is below `S` exactly when some range contains it (so their union
is `[0, S)`, the final range absorbing the remainder); and the range
lengths sum to `S`. -/
theorem chunk_ranges_partition (S N : Nat) (hS : 0 < S) (hN : 1 ≤ N) :
    (Peer.chunk_ranges S N).length = N
  ∧ (∀ i, i < N - 1 →
        ((Peer.chunk_ranges S N).getD i (0, 0)).2
          - ((Peer.chunk_ranges S N).getD i (0, 0)).1 = S / N)
  ∧ (∀ i j, i < j → j < N →
        ((Peer.chunk_ranges S N).getD i (0, 0)).2
          ≤ ((Peer.chunk_ranges S N).getD j (0, 0)).1)
  ∧ (∀ k, k < S ↔ ∃ i, i < N ∧
        ((Peer.chunk_ranges S N).getD i (0, 0)).1 ≤ k
      ∧ k < ((Peer.chunk_ranges S N).getD i (0, 0)).2)
  ∧ ((Peer.chunk_ranges S N).map (fun r => r.2 - r.1)).sum = S := by
  have hcs : S / N * N ≤ S := Nat.div_mul_le_self S N
  have hend_le : ∀ i, i < N → (if i = N - 1 then S else i * (S / N) + S / N) ≤ S := by
    intro i hi
    by_cases hi1 : i = N - 1
    · rw [if_pos hi1]
    · rw [if_neg hi1]
      calc i * (S / N) + S / N = (i + 1) * (S / N) := by ring
      _ ≤ N * (S / N) := Nat.mul_le_mul_right _ (by omega)
      _ = S / N * N := by ring
      _ ≤ S := hcs
  refine ⟨?_, ?_, ?_, ?_, chunk_ranges_sum S N hN⟩
  · simp [Peer.chunk_ranges]
  · intro i hi
    rw [chunk_ranges_getD S N i (by omega)]
    dsimp only
    rw [if_neg (by omega)]
    generalize i * (S / N) = t
    generalize S / N = c
    omega
  · intro i j hij hj
    rw [chunk_ranges_getD S N i (by omega), chunk_ranges_getD S N j (by omega)]
    dsimp only
    rw [if_neg (by omega)]
    calc i * (S / N) + S / N = (i + 1) * (S / N) := by ring
    _ ≤ j * (S / N) := Nat.mul_le_mul_right _ (by omega)
  · intro k
    constructor
    · intro hk
      by_cases hcs0 : S / N = 0
      · refine ⟨N - 1, by omega, ?_, ?_⟩
        · rw [chunk_ranges_getD S N (N - 1) (by omega)]
          simp [hcs0]
        · rw [chunk_ranges_getD S N (N - 1) (by omega)]
          dsimp only
          rw [if_pos rfl]
          exact hk
      · by_cases hfit : k / (S / N) < N - 1
        · refine ⟨k / (S / N), by omega, ?_, ?_⟩
          · rw [chunk_ranges_getD S N (k / (S / N)) (by omega)]
            dsimp only
            exact Nat.div_mul_le_self k (S / N)
          · rw [chunk_ranges_getD S N (k / (S / N)) (by omega)]
            dsimp only
            rw [if_neg (by omega)]
            have h1 := Nat.div_add_mod k (S / N)
            have h2 := Nat.mod_lt k (Nat.pos_of_ne_zero hcs0)
            have h3 : k / (S / N) * (S / N) = S / N * (k / (S / N)) := by ring
            rw [h3]
            clear hcs hend_le hfit
            revert h1 h2
            generalize S / N * (k / (S / N)) = t
            generalize k % (S / N) = r
            generalize S / N = c
            intro h1 h2
            omega
        · refine ⟨N - 1, by omega, ?_, ?_⟩
          · rw [chunk_ranges_getD S N (N - 1) (by omega)]
            dsimp only
            calc (N - 1) * (S / N) ≤ k / (S / N) * (S / N) :=
                  Nat.mul_le_mul_right _ (by omega)
            _ ≤ k := Nat.div_mul_le_self k (S / N)
          · rw [chunk_ranges_getD S N (N - 1) (by omega)]
            dsimp only
            rw [if_pos rfl]
            exact hk
    · rintro ⟨i, hi, hlo, hhi⟩
      rw [chunk_ranges_getD S N i hi] at hhi
      exact lt_of_lt_of_le hhi (hend_le i hi)

/-- C4 (witness): the partition theorem applied at `S = 10`, `N = 3`. -/
theorem chunk_ranges_partition_witness :
    (Peer.chunk_ranges 10 3).length = 3
  ∧ (∀ i, i < 3 - 1 →
        ((Peer.chunk_ranges 10 3).getD i (0, 0)).2
          - ((Peer.chunk_ranges 10 3).getD i (0, 0)).1 = 10 / 3)
  ∧ (∀ i j, i < j → j < 3 →
        ((Peer.chunk_ranges 10 3).getD i (0, 0)).2
          ≤ ((Peer.chunk_ranges 10 3).getD j (0, 0)).1)
  ∧ (∀ k, k < 10 ↔ ∃ i, i < 3 ∧
        ((Peer.chunk_ranges 10 3).getD i (0, 0)).1 ≤ k
      ∧ k < ((Peer.chunk_ranges 10 3).getD i (0, 0)).2)
  ∧ ((Peer.chunk_ranges 10 3).map (fun r => r.2 - r.1)).sum = 10 :=
  chunk_ranges_partition 10 3 (by decide) (by decide)

/-! ## Claim C5 — the serving side of DOWNLOAD clamps and sends the
exact range -/

/-- C5: for an offered, on-disk file, `_handle_file_download_request`
clamps `start` up to 0 and `end` down to the file size; an empty clamped
range sends zero content bytes; a non-empty one sends exactly
`end - start` (clamped) bytes, which are precisely the file's bytes at
offset `start`, raw (the reported upload delta equals that length). -/
theorem download_request_clamped (files : List String) (disk : Peer.Disk)
    (filename : String) (content : List Nat) (start endp : Int)
    (hoff : filename ∈ files)
    (hdisk : Peer.diskLookup disk filename = some content) :
    (min endp (content.length : Int) ≤ max start 0 →
       Peer.handle_file_download_request files disk filename start endp
         = (.bytesSent [], none))
  ∧ (max start 0 < min endp (content.length : Int) →
       ∃ data, Peer.handle_file_download_request files disk filename start endp
           = (.bytesSent data, some (min endp (content.length : Int) - max start 0))
         ∧ (data.length : Int) = min endp (content.length : Int) - max start 0
         ∧ data = (content.drop (max start 0).toNat).take
             (min endp (content.length : Int) - max start 0).toNat) := by
  have hs2 : (if start < 0 then (0 : Int) else start) = max start 0 := by
    by_cases h : start < 0
    · rw [if_pos h, max_eq_right (le_of_lt h)]
    · rw [if_neg h, max_eq_left (le_of_not_lt h)]
  have he2 : (if endp > (content.length : Int) then (content.length : Int) else endp)
      = min endp (content.length : Int) := by
    by_cases h : endp > (content.length : Int)
    · rw [if_pos h, min_eq_right (le_of_lt h)]
    · rw [if_neg h, min_eq_left (le_of_not_lt h)]
  unfold Peer.handle_file_download_request
  rw [hdisk]
  dsimp only
  rw [if_pos hoff, hs2, he2]
  constructor
  · intro hle
    rw [if_pos (by omega)]
  · intro hlt
    rw [if_neg (by omega)]
    refine ⟨_, rfl, ?_, rfl⟩
    rw [List.length_take, List.length_drop]
    omega

/-- C5 (witness): serving `DOWNLOAD f -2 3` for a 5-byte file: the range
clamps to `[0, 3)` and exactly bytes `[10, 20, 30]` are sent. -/
theorem download_request_clamped_witness :
    ∃ data, Peer.handle_file_download_request ["f"] [("f", [10, 20, 30, 40, 50])]
        "f" (-2) 3 = (.bytesSent data, some 3)
      ∧ (data.length : Int) = 3 ∧ data = [10, 20, 30] := by
  obtain ⟨data, heq, hlen, hdata⟩ :=
    (download_request_clamped ["f"] [("f", [10, 20, 30, 40, 50])] "f"
      [10, 20, 30, 40, 50] (-2) 3 (by decide) (by decide)).2 (by decide)
  subst hdata
  exact ⟨_, heq, hlen, by decide⟩

/-! ## Claim C6 — one eviction pass removes exactly the stale records

`remove_inactive_peers` collects every record whose `last_keepalive` is
present (and truthy) with `now - last_k > timeout`, then deletes the
collected ids.  Records that never got a keepalive are skipped.  The
positivity hypothesis reflects that `time.time()` is always positive, so
Python's falsiness test `if not last_k` only ever fires on a missing
timestamp. -/

/-- C6: a record survives one eviction pass at time `now` with timeout
`timeout` exactly when it was there before and its recorded keepalive
(if any) is at most `timeout` seconds old; in particular a record
strictly older than `timeout` is removed, one at most `timeout` old is
kept, and one with no recorded keepalive is always kept. -/
theorem evict_pass_exact (st : Tracker.Registry) (now timeout : Nat)
    (hpos : Tracker.allKeepalivesPos st = true) :
    ∀ pid info, ((pid, info) ∈ Tracker.remove_inactive_pass st now timeout ↔
      ((pid, info) ∈ st ∧ ∀ t, info.last_keepalive = some t → now - t ≤ timeout)) := by
  intro pid info
  unfold Tracker.remove_inactive_pass
  rw [List.mem_filter]
  constructor
  · rintro ⟨hmem, hp⟩
    refine ⟨hmem, ?_⟩
    intro t ht
    have hall := List.all_eq_true.mp hpos (pid, info) hmem
    rw [ht] at hall
    simp only [decide_eq_true_eq] at hall
    rw [ht] at hp
    dsimp only at hp
    rw [if_neg (by omega)] at hp
    simp only [decide_eq_true_eq] at hp
    omega
  · rintro ⟨hmem, hcond⟩
    refine ⟨hmem, ?_⟩
    cases hlk : info.last_keepalive with
    | none => simp
    | some t =>
        dsimp only
        by_cases ht0 : t = 0
        · simp [ht0]
        · rw [if_neg ht0]
          have := hcond t hlk
          simp only [decide_eq_true_eq]
          omega

/-- C6 (witness): at time 1000 with timeout 60, the record whose
keepalive is 61 seconds old is removed and the one 59 seconds old is
kept. -/
theorem evict_pass_exact_witness :
    (∀ pid info, ((pid, info) ∈ Tracker.remove_inactive_pass c6Reg 1000 60 ↔
        ((pid, info) ∈ c6Reg ∧ ∀ t, info.last_keepalive = some t → 1000 - t ≤ 60)))
  ∧ ("OLD", c6Old) ∉ Tracker.remove_inactive_pass c6Reg 1000 60
  ∧ ("FRESH", c6Fresh) ∈ Tracker.remove_inactive_pass c6Reg 1000 60 :=
  ⟨evict_pass_exact c6Reg 1000 60 (by decide), by decide, by decide⟩

/-! ## Claim C7 — SEARCH returns exactly the holders of the file -/

/-- C7: a SEARCH leaves the registry unchanged and answers with the
search response; a triple `(id, ip, port)` is in the result exactly when
a registered record with that id, ip and port lists the file; when no
registered peer holds the file the reply is `SEARCH_RESULT 0`; and after
a peer unregisters, no triple with its id is returned any more. -/
theorem search_exact (st : Tracker.Registry) (f : String) (now now2 : Nat)
    (pid : String) :
    (Tracker.handle_client st now ["SEARCH", f]).1 = st
  ∧ (Tracker.handle_client st now ["SEARCH", f]).2
      = some (Tracker.searchResponse st f)
  ∧ (∀ p ip port, ((p, ip, port) ∈ Tracker.searchResult st f ↔
        ∃ info, (p, info) ∈ st ∧ info.ip = ip ∧ info.port = port ∧ f ∈ info.files))
  ∧ ((∀ p info, (p, info) ∈ st → f ∉ info.files) →
        (Tracker.handle_client st now ["SEARCH", f]).2 = some "SEARCH_RESULT 0\n")
  ∧ ((st.map Prod.fst).Nodup →
        ∀ ip port, ¬ ((pid, ip, port) ∈ Tracker.searchResult
            (Tracker.handle_client st now2 ["UNREGISTER", pid]).1 f)) := by
  have hchar : ∀ (st2 : Tracker.Registry) (p : String) (ip : String) (port : Int),
      ((p, ip, port) ∈ Tracker.searchResult st2 f ↔
        ∃ info, (p, info) ∈ st2 ∧ info.ip = ip ∧ info.port = port ∧ f ∈ info.files) := by
    intro st2 p ip port
    unfold Tracker.searchResult
    rw [List.mem_filterMap]
    constructor
    · rintro ⟨⟨q, info⟩, hmem, heq⟩
      dsimp only at heq
      by_cases hf : f ∈ info.files
      · rw [if_pos hf] at heq
        simp only [Option.some.injEq, Prod.mk.injEq] at heq
        obtain ⟨hq, hip, hport⟩ := heq
        subst hq
        exact ⟨info, hmem, hip, hport, hf⟩
      · rw [if_neg hf] at heq
        simp at heq
    · rintro ⟨info, hmem, hip, hport, hf⟩
      refine ⟨(p, info), hmem, ?_⟩
      dsimp only
      rw [if_pos hf, hip, hport]
  have hup : Tracker.pyUpper "SEARCH" = "SEARCH" := rfl
  have hsearch : Tracker.handle_client st now ["SEARCH", f]
      = (st, some (Tracker.searchResponse st f)) := by
    simp [Tracker.handle_client, hup]
  refine ⟨by rw [hsearch], by rw [hsearch], hchar st, ?_, ?_⟩
  · intro hnone
    rw [hsearch]
    have hres : Tracker.searchResult st f = [] := by
      unfold Tracker.searchResult
      rw [List.filterMap_eq_nil_iff]
      rintro ⟨q, info⟩ hmem
      dsimp only
      rw [if_neg (hnone q info hmem)]
    unfold Tracker.searchResponse
    rw [hres]
    rfl
  · intro hnd ip port hmem
    have hupu : Tracker.pyUpper "UNREGISTER" = "UNREGISTER" := rfl
    cases hlk : Tracker.lookupPeer st pid with
    | none =>
        have hst : (Tracker.handle_client st now2 ["UNREGISTER", pid]).1 = st := by
          simp [Tracker.handle_client, hupu, hlk]
        rw [hst] at hmem
        obtain ⟨info, hmem2, _, _, _⟩ := (hchar st pid ip port).mp hmem
        exact Tracker.lookupPeer_eq_none hlk info hmem2
    | some info0 =>
        have hst : (Tracker.handle_client st now2 ["UNREGISTER", pid]).1
            = Tracker.erasePeer st pid := by
          simp [Tracker.handle_client, hupu, hlk]
        rw [hst] at hmem
        obtain ⟨info, hmem2, _, _, _⟩ := (hchar _ pid ip port).mp hmem
        exact Tracker.not_mem_erasePeer_self hnd info hmem2

/-- C7 (witness): on a registry where only `A` offers `x.txt`, SEARCH
answers with `A`'s line, the membership characterization holds, and
after `A` unregisters the search result no longer mentions `A`. -/
theorem search_exact_witness :
    (Tracker.handle_client c7Reg 200 ["SEARCH", "x.txt"]).2
        = some (Tracker.searchResponse c7Reg "x.txt")
  ∧ ("A", "1.1.1.1", (7001 : Int)) ∈ Tracker.searchResult c7Reg "x.txt"
  ∧ (∀ ip port, ¬ (("A", ip, port) ∈ Tracker.searchResult
        (Tracker.handle_client c7Reg 201 ["UNREGISTER", "A"]).1 "x.txt")) := by
  refine ⟨(search_exact c7Reg "x.txt" 200 201 "A").2.1, by decide, ?_⟩
  intro ip port
  exact (search_exact c7Reg "x.txt" 200 201 "A").2.2.2.2 (by decide) ip port

/-! ## Claim C8 — malformed commands

The claim says every wrong-argument-count line gets an ERROR and
mutates nothing.  But the REGISTER branch accepts ANY token count of at
least 4 (a 6-token REGISTER registers the peer, silently dropping the
file argument), and GET_PEERS ignores extra tokens; only the counts each
branch explicitly checks are rejected. -/

/-- C8 (counterexample): `REGISTER A 1.2.3.4 7000 a.txt junk` has six
tokens — the wrong argument count for REGISTER — yet the tracker replies
`REGISTER_OK` (not an ERROR) and mutates the registry by creating a
record for `A` with an empty file list. -/
theorem register_extra_tokens_counterexample :
    (Tracker.handle_client [] 100
        ["REGISTER", "A", "1.2.3.4", "7000", "a.txt", "junk"]).2
      = some "REGISTER_OK\n"
  ∧ (Tracker.handle_client [] 100
        ["REGISTER", "A", "1.2.3.4", "7000", "a.txt", "junk"]).1
      = [("A", { ip := "1.2.3.4", port := 7000, files := [],
                 last_keepalive := some 100, score := 0 })] :=
  ⟨rfl, rfl⟩

/-- C8 (amended): every command line the dispatch actually rejects —
REGISTER with fewer than 4 tokens, UNREGISTER / SEARCH / KEEPALIVE with
a token count other than 2, INCREMENT_SCORE with a token count other
than 3, or an unknown verb — gets a textual `ERROR ...` reply and leaves
the registry unchanged.  (REGISTER with more than 5 tokens and GET_PEERS
with extra tokens are NOT rejected.) -/
theorem rejected_shape_no_mutation (st : Tracker.Registry) (now : Nat)
    (parts : List String) (h : Tracker.isRejectedShape parts = true) :
    (Tracker.handle_client st now parts).1 = st
  ∧ ∃ tail, (Tracker.handle_client st now parts).2 = some ("ERROR " ++ tail) := by
  cases parts with
  | nil => simp [Tracker.isRejectedShape] at h
  | cons c rest =>
      unfold Tracker.isRejectedShape at h
      unfold Tracker.handle_client
      dsimp only at h ⊢
      by_cases h1 : Tracker.pyUpper c = "REGISTER"
      · simp only [h1] at h ⊢
        simp only [if_true] at h ⊢
        simp only [decide_eq_true_eq] at h
        rw [if_neg (by omega)]
        exact ⟨rfl, "Uso: REGISTER <peer_id> <ip> <port> [files]\n", rfl⟩
      · rw [if_neg h1] at h ⊢
        by_cases h2 : Tracker.pyUpper c = "UNREGISTER"
        · simp only [h2] at h ⊢
          simp only [if_true] at h ⊢
          simp only [decide_eq_true_eq] at h
          rw [if_neg (by omega)]
          exact ⟨rfl, "Uso: UNREGISTER <peer_id>\n", rfl⟩
        · rw [if_neg h2] at h ⊢
          by_cases h3 : Tracker.pyUpper c = "SEARCH"
          · simp only [h3] at h ⊢
            simp only [if_true] at h ⊢
            simp only [decide_eq_true_eq] at h
            rw [if_neg (by omega)]
            exact ⟨rfl, "Uso: SEARCH <filename>\n", rfl⟩
          · rw [if_neg h3] at h ⊢
            by_cases h4 : Tracker.pyUpper c = "GET_PEERS"
            · simp only [h4] at h
              simp only [if_true] at h
              simp at h
            · rw [if_neg h4] at h ⊢
              by_cases h5 : Tracker.pyUpper c = "KEEPALIVE"
              · simp only [h5] at h ⊢
                simp only [if_true] at h ⊢
                simp only [decide_eq_true_eq] at h
                rw [if_neg (by omega)]
                exact ⟨rfl, "Uso: KEEPALIVE <peer_id>\n", rfl⟩
              · rw [if_neg h5] at h ⊢
                by_cases h6 : Tracker.pyUpper c = "INCREMENT_SCORE"
                · simp only [h6] at h ⊢
                  simp only [if_true] at h ⊢
                  simp only [decide_eq_true_eq] at h
                  rw [if_neg (by omega)]
                  exact ⟨rfl, "Uso: INCREMENT_SCORE <peer_id> <delta>\n", rfl⟩
                · rw [if_neg h6]
                  exact ⟨rfl, "Comando desconhecido\n", rfl⟩

/-- C8 (witness): the amended theorem at the one-token line
`UNREGISTER` on a nonempty registry. -/
theorem rejected_shape_no_mutation_witness :
    (Tracker.handle_client
        [("K", ⟨"1.1.1.1", 7001, [], some 100, 0⟩)] 100 ["UNREGISTER"]).1
      = [("K", ⟨"1.1.1.1", 7001, [], some 100, 0⟩)]
  ∧ ∃ tail, (Tracker.handle_client
        [("K", ⟨"1.1.1.1", 7001, [], some 100, 0⟩)] 100 ["UNREGISTER"]).2
      = some ("ERROR " ++ tail) :=
  rejected_shape_no_mutation
    [("K", ⟨"1.1.1.1", 7001, [], some 100, 0⟩)] 100 ["UNREGISTER"] (by decide)

/-! ## Claim C3 — the score invariant

The tracker parses the INCREMENT_SCORE delta with a bare `int()`: a
NEGATIVE delta is accepted and decrements the score, so the claim's
"every INCREMENT_SCORE operation applies a delta ≥ 0" is false for the
tracker.  Under the restriction to nonnegative deltas (the only deltas
the repository's own peer ever sends — upload byte counts) the invariant
does hold. -/

/-- C3 (counterexample): on a record with score 0 the command
`INCREMENT_SCORE PEER1 -5` is accepted with `INCREMENT_OK` and leaves
the score at `-5`: a negative delta, a decremented and negative score. -/
theorem increment_negative_delta_counterexample :
    (Tracker.handle_client c3Reg 200 ["INCREMENT_SCORE", "PEER1", "-5"]).2
      = some "INCREMENT_OK\n"
  ∧ Tracker.scoreOf (Tracker.handle_client c3Reg 200
      ["INCREMENT_SCORE", "PEER1", "-5"]).1 "PEER1" = some (-5) :=
  ⟨rfl, rfl⟩

/-- Scores stay nonnegative when moving to any sub-collection of
records. -/
theorem allScoresNonneg_of_subset {st st2 : Tracker.Registry}
    (hsub : ∀ x ∈ st2, x ∈ st) (h : Tracker.allScoresNonneg st = true) :
    Tracker.allScoresNonneg st2 = true := by
  rw [Tracker.allScoresNonneg, List.all_eq_true]
  intro x hx
  exact List.all_eq_true.mp h x (hsub x hx)

/-- Writing a record with nonnegative score preserves the invariant. -/
theorem allScoresNonneg_setPeer {st : Tracker.Registry} {pid : String}
    {info : Tracker.PeerInfo} (h : Tracker.allScoresNonneg st = true)
    (hi : 0 ≤ info.score) :
    Tracker.allScoresNonneg (Tracker.setPeer st pid info) = true := by
  rw [Tracker.allScoresNonneg, List.all_eq_true]
  rintro ⟨q, v⟩ hmem
  rcases Tracker.mem_setPeer hmem with h1 | h1
  · exact List.all_eq_true.mp h _ h1
  · have hv : v = info := congrArg Prod.snd h1
    subst hv
    simpa using hi

/-- A record found in the registry has nonnegative score under the
invariant. -/
theorem score_nonneg_of_lookup {st : Tracker.Registry} {pid : String}
    {info : Tracker.PeerInfo} (h : Tracker.allScoresNonneg st = true)
    (hlk : Tracker.lookupPeer st pid = some info) : 0 ≤ info.score := by
  have hm := Tracker.lookupPeer_mem hlk
  have := List.all_eq_true.mp h _ hm
  simpa using this

/-- One operation with a nonnegative delta keeps every score
nonnegative. -/
theorem allScoresNonneg_step (st : Tracker.Registry) (op : Tracker.TrackerOp)
    (h : Tracker.allScoresNonneg st = true) (hop : Tracker.opNonneg op = true) :
    Tracker.allScoresNonneg (Tracker.stepOp st op) = true := by
  cases op with
  | evict now timeout =>
      unfold Tracker.stepOp Tracker.remove_inactive_pass
      exact allScoresNonneg_of_subset (fun x hx => List.mem_of_mem_filter hx) h
  | client now parts =>
      cases parts with
      | nil => exact h
      | cons c rest =>
          unfold Tracker.stepOp Tracker.handle_client
          dsimp only
          by_cases h1 : Tracker.pyUpper c = "REGISTER"
          · simp only [h1, if_true]
            by_cases hlen : 4 ≤ (c :: rest).length
            · rw [if_pos hlen]
              cases hlk : Tracker.lookupPeer st ((c :: rest).getD 1 "") with
              | some v => exact h
              | none =>
                  cases hp : Tracker.pyParseInt ((c :: rest).getD 3 "") with
                  | none => exact h
                  | some p =>
                      dsimp only
                      apply allScoresNonneg_setPeer h
                      dsimp only
                      omega
            · rw [if_neg hlen]
              exact h
          · rw [if_neg h1]
            by_cases h2 : Tracker.pyUpper c = "UNREGISTER"
            · simp only [h2, if_true]
              by_cases hlen : (c :: rest).length = 2
              · rw [if_pos hlen]
                cases hlk : Tracker.lookupPeer st ((c :: rest).getD 1 "") with
                | some v =>
                    dsimp only
                    exact allScoresNonneg_of_subset
                      (fun x hx => Tracker.mem_of_mem_erasePeer hx) h
                | none => exact h
              · rw [if_neg hlen]
                exact h
            · rw [if_neg h2]
              by_cases h3 : Tracker.pyUpper c = "SEARCH"
              · simp only [h3, if_true]
                by_cases hlen : (c :: rest).length = 2
                · rw [if_pos hlen]
                  exact h
                · rw [if_neg hlen]
                  exact h
              · rw [if_neg h3]
                by_cases h4 : Tracker.pyUpper c = "GET_PEERS"
                · simp only [h4, if_true]
                  exact h
                · rw [if_neg h4]
                  by_cases h5 : Tracker.pyUpper c = "KEEPALIVE"
                  · simp only [h5, if_true]
                    by_cases hlen : (c :: rest).length = 2
                    · rw [if_pos hlen]
                      cases hlk : Tracker.lookupPeer st ((c :: rest).getD 1 "") with
                      | some info =>
                          dsimp only
                          apply allScoresNonneg_setPeer h
                          dsimp only
                          exact score_nonneg_of_lookup h hlk
                      | none => exact h
                    · rw [if_neg hlen]
                      exact h
                  · rw [if_neg h5]
                    by_cases h6 : Tracker.pyUpper c = "INCREMENT_SCORE"
                    · simp only [h6, if_true]
                      by_cases hlen : (c :: rest).length = 3
                      · rw [if_pos hlen]
                        cases hp : Tracker.pyParseInt ((c :: rest).getD 2 "") with
                        | none => exact h
                        | some d =>
                            dsimp only
                            cases hlk : Tracker.lookupPeer st ((c :: rest).getD 1 "") with
                            | some info =>
                                dsimp only
                                have hd : 0 ≤ d := by
                                  unfold Tracker.opNonneg at hop
                                  dsimp only at hop
                                  rw [if_pos ⟨hlen, by
                                    rw [List.getD_cons_zero]; exact h6⟩] at hop
                                  rw [hp] at hop
                                  dsimp only at hop
                                  simpa using hop
                                have hsc := score_nonneg_of_lookup h hlk
                                apply allScoresNonneg_setPeer h
                                dsimp only
                                omega
                            | none => exact h
                      · rw [if_neg hlen]
                        exact h
                    · rw [if_neg h6]
                      exact h

/-- With a nonnegative delta, one operation never decreases the score of
a record that exists before and after it (registry keys unique, as dict
keys are). -/
theorem score_step_mono (st : Tracker.Registry) (op : Tracker.TrackerOp)
    (pid : String) (hop : Tracker.opNonneg op = true)
    (hnd : (st.map Prod.fst).Nodup) (s s2 : Int)
    (hs : Tracker.scoreOf st pid = some s)
    (hs2 : Tracker.scoreOf (Tracker.stepOp st op) pid = some s2) : s ≤ s2 := by
  cases op with
  | evict now timeout =>
      unfold Tracker.stepOp Tracker.remove_inactive_pass at hs2
      unfold Tracker.scoreOf at hs hs2
      obtain ⟨info2, hlk2, hsc2⟩ := Option.map_eq_some'.mp hs2
      rw [Tracker.lookupPeer_filter_some hnd hlk2] at hs
      simp only [Option.map_some', Option.some.injEq] at hs
      omega
  | client now parts =>
      cases parts with
      | nil =>
          unfold Tracker.stepOp Tracker.handle_client at hs2
          rw [hs] at hs2
          simp only [Option.some.injEq] at hs2
          omega
      | cons c rest =>
          unfold Tracker.stepOp Tracker.handle_client at hs2
          dsimp only at hs2
          by_cases h1 : Tracker.pyUpper c = "REGISTER"
          · simp only [h1, if_true] at hs2
            by_cases hlen : 4 ≤ (c :: rest).length
            · rw [if_pos hlen] at hs2
              cases hlk : Tracker.lookupPeer st ((c :: rest).getD 1 "") with
              | some v =>
                  rw [hlk] at hs2
                  dsimp only at hs2
                  rw [hs] at hs2
                  simp only [Option.some.injEq] at hs2
                  omega
              | none =>
                  rw [hlk] at hs2
                  dsimp only at hs2
                  cases hp : Tracker.pyParseInt ((c :: rest).getD 3 "") with
                  | none =>
                      rw [hp] at hs2
                      dsimp only at hs2
                      rw [hs] at hs2
                      simp only [Option.some.injEq] at hs2
                      omega
                  | some p =>
                      rw [hp] at hs2
                      dsimp only at hs2
                      by_cases hq : pid = (c :: rest).getD 1 ""
                      · rw [← hq] at hlk
                        unfold Tracker.scoreOf at hs
                        rw [hlk] at hs
                        simp at hs
                      · unfold Tracker.scoreOf at hs hs2
                        rw [Tracker.lookupPeer_setPeer_ne st _ hq] at hs2
                        rw [hs] at hs2
                        simp only [Option.some.injEq] at hs2
                        omega
            · rw [if_neg hlen] at hs2
              rw [hs] at hs2
              simp only [Option.some.injEq] at hs2
              omega
          · rw [if_neg h1] at hs2
            by_cases h2 : Tracker.pyUpper c = "UNREGISTER"
            · simp only [h2, if_true] at hs2
              by_cases hlen : (c :: rest).length = 2
              · rw [if_pos hlen] at hs2
                cases hlk : Tracker.lookupPeer st ((c :: rest).getD 1 "") with
                | some v =>
                    rw [hlk] at hs2
                    dsimp only at hs2
                    by_cases hq : pid = (c :: rest).getD 1 ""
                    · subst hq
                      unfold Tracker.scoreOf at hs2
                      obtain ⟨info2, hlk2, hsc2⟩ := Option.map_eq_some'.mp hs2
                      have hmem := Tracker.lookupPeer_mem hlk2
                      exact absurd hmem (Tracker.not_mem_erasePeer_self hnd info2)
                    · unfold Tracker.scoreOf at hs hs2
                      rw [Tracker.lookupPeer_erasePeer_ne st hq] at hs2
                      rw [hs] at hs2
                      simp only [Option.some.injEq] at hs2
                      omega
                | none =>
                    rw [hlk] at hs2
                    dsimp only at hs2
                    rw [hs] at hs2
                    simp only [Option.some.injEq] at hs2
                    omega
              · rw [if_neg hlen] at hs2
                rw [hs] at hs2
                simp only [Option.some.injEq] at hs2
                omega
            · rw [if_neg h2] at hs2
              by_cases h3 : Tracker.pyUpper c = "SEARCH"
              · simp only [h3, if_true] at hs2
                by_cases hlen : (c :: rest).length = 2
                · rw [if_pos hlen] at hs2
                  rw [hs] at hs2
                  simp only [Option.some.injEq] at hs2
                  omega
                · rw [if_neg hlen] at hs2
                  rw [hs] at hs2
                  simp only [Option.some.injEq] at hs2
                  omega
              · rw [if_neg h3] at hs2
                by_cases h4 : Tracker.pyUpper c = "GET_PEERS"
                · simp only [h4, if_true] at hs2
                  rw [hs] at hs2
                  simp only [Option.some.injEq] at hs2
                  omega
                · rw [if_neg h4] at hs2
                  by_cases h5 : Tracker.pyUpper c = "KEEPALIVE"
                  · simp only [h5, if_true] at hs2
                    by_cases hlen : (c :: rest).length = 2
                    · rw [if_pos hlen] at hs2
                      cases hlk : Tracker.lookupPeer st ((c :: rest).getD 1 "") with
                      | some info =>
                          rw [hlk] at hs2
                          dsimp only at hs2
                          by_cases hq : pid = (c :: rest).getD 1 ""
                          · rw [← hq] at hlk hs2
                            unfold Tracker.scoreOf at hs hs2
                            rw [Tracker.lookupPeer_setPeer_self] at hs2
                            rw [hlk] at hs
                            simp only [Option.map_some', Option.some.injEq] at hs hs2
                            omega
                          · unfold Tracker.scoreOf at hs hs2
                            rw [Tracker.lookupPeer_setPeer_ne st _ hq] at hs2
                            rw [hs] at hs2
                            simp only [Option.some.injEq] at hs2
                            omega
                      | none =>
                          rw [hlk] at hs2
                          dsimp only at hs2
                          rw [hs] at hs2
                          simp only [Option.some.injEq] at hs2
                          omega
                    · rw [if_neg hlen] at hs2
                      rw [hs] at hs2
                      simp only [Option.some.injEq] at hs2
                      omega
                  · rw [if_neg h5] at hs2
                    by_cases h6 : Tracker.pyUpper c = "INCREMENT_SCORE"
                    · simp only [h6, if_true] at hs2
                      by_cases hlen : (c :: rest).length = 3
                      · rw [if_pos hlen] at hs2
                        cases hp : Tracker.pyParseInt ((c :: rest).getD 2 "") with
                        | none =>
                            rw [hp] at hs2
                            dsimp only at hs2
                            rw [hs] at hs2
                            simp only [Option.some.injEq] at hs2
                            omega
                        | some d =>
                            rw [hp] at hs2
                            dsimp only at hs2
                            have hd : 0 ≤ d := by
                              unfold Tracker.opNonneg at hop
                              dsimp only at hop
                              rw [if_pos ⟨hlen, by
                                rw [List.getD_cons_zero]; exact h6⟩] at hop
                              rw [hp] at hop
                              dsimp only at hop
                              simpa using hop
                            cases hlk : Tracker.lookupPeer st ((c :: rest).getD 1 "") with
                            | some info =>
                                rw [hlk] at hs2
                                dsimp only at hs2
                                by_cases hq : pid = (c :: rest).getD 1 ""
                                · rw [← hq] at hlk hs2
                                  unfold Tracker.scoreOf at hs hs2
                                  rw [Tracker.lookupPeer_setPeer_self] at hs2
                                  rw [hlk] at hs
                                  simp only [Option.map_some', Option.some.injEq] at hs hs2
                                  omega
                                · unfold Tracker.scoreOf at hs hs2
                                  rw [Tracker.lookupPeer_setPeer_ne st _ hq] at hs2
                                  rw [hs] at hs2
                                  simp only [Option.some.injEq] at hs2
                                  omega
                            | none =>
                                rw [hlk] at hs2
                                dsimp only at hs2
                                rw [hs] at hs2
                                simp only [Option.some.injEq] at hs2
                                omega
                      · rw [if_neg hlen] at hs2
                        rw [hs] at hs2
                        simp only [Option.some.injEq] at hs2
                        omega
                    · rw [if_neg h6] at hs2
                      rw [hs] at hs2
                      simp only [Option.some.injEq] at hs2
                      omega

/-- A record absent before an operation and present after it was created
by REGISTER with score 0. -/
theorem score_created_zero (st : Tracker.Registry) (op : Tracker.TrackerOp)
    (pid : String) (s2 : Int)
    (hs : Tracker.scoreOf st pid = none)
    (hs2 : Tracker.scoreOf (Tracker.stepOp st op) pid = some s2) : s2 = 0 := by
  unfold Tracker.scoreOf at hs
  have hlkn : Tracker.lookupPeer st pid = none := Option.map_eq_none'.mp hs
  have habsent : ∀ info, (pid, info) ∉ st := Tracker.lookupPeer_eq_none hlkn
  cases op with
  | evict now timeout =>
      unfold Tracker.stepOp Tracker.remove_inactive_pass at hs2
      unfold Tracker.scoreOf at hs2
      obtain ⟨info2, hlk2, _⟩ := Option.map_eq_some'.mp hs2
      exact absurd (List.mem_of_mem_filter (Tracker.lookupPeer_mem hlk2))
        (habsent info2)
  | client now parts =>
      cases parts with
      | nil =>
          unfold Tracker.stepOp Tracker.handle_client at hs2
          unfold Tracker.scoreOf at hs2
          rw [hlkn] at hs2
          simp at hs2
      | cons c rest =>
          unfold Tracker.stepOp Tracker.handle_client at hs2
          dsimp only at hs2
          have htriv : Tracker.scoreOf st pid = some s2 → s2 = 0 := by
            intro hcontra
            unfold Tracker.scoreOf at hcontra
            rw [hlkn] at hcontra
            simp at hcontra
          by_cases h1 : Tracker.pyUpper c = "REGISTER"
          · simp only [h1, if_true] at hs2
            by_cases hlen : 4 ≤ (c :: rest).length
            · rw [if_pos hlen] at hs2
              cases hlk : Tracker.lookupPeer st ((c :: rest).getD 1 "") with
              | some v =>
                  rw [hlk] at hs2
                  dsimp only at hs2
                  exact htriv hs2
              | none =>
                  rw [hlk] at hs2
                  dsimp only at hs2
                  cases hp : Tracker.pyParseInt ((c :: rest).getD 3 "") with
                  | none =>
                      rw [hp] at hs2
                      dsimp only at hs2
                      exact htriv hs2
                  | some p =>
                      rw [hp] at hs2
                      dsimp only at hs2
                      by_cases hq : pid = (c :: rest).getD 1 ""
                      · rw [← hq] at hs2
                        unfold Tracker.scoreOf at hs2
                        rw [Tracker.lookupPeer_setPeer_self] at hs2
                        simp only [Option.map_some', Option.some.injEq] at hs2
                        omega
                      · unfold Tracker.scoreOf at hs2
                        rw [Tracker.lookupPeer_setPeer_ne st _ hq, hlkn] at hs2
                        simp at hs2
            · rw [if_neg hlen] at hs2
              exact htriv hs2
          · rw [if_neg h1] at hs2
            by_cases h2 : Tracker.pyUpper c = "UNREGISTER"
            · simp only [h2, if_true] at hs2
              by_cases hlen : (c :: rest).length = 2
              · rw [if_pos hlen] at hs2
                cases hlk : Tracker.lookupPeer st ((c :: rest).getD 1 "") with
                | some v =>
                    rw [hlk] at hs2
                    dsimp only at hs2
                    unfold Tracker.scoreOf at hs2
                    obtain ⟨info2, hlk2, _⟩ := Option.map_eq_some'.mp hs2
                    exact absurd
                      (Tracker.mem_of_mem_erasePeer (Tracker.lookupPeer_mem hlk2))
                      (habsent info2)
                | none =>
                    rw [hlk] at hs2
                    dsimp only at hs2
                    exact htriv hs2
              · rw [if_neg hlen] at hs2
                exact htriv hs2
            · rw [if_neg h2] at hs2
              by_cases h3 : Tracker.pyUpper c = "SEARCH"
              · simp only [h3, if_true] at hs2
                by_cases hlen : (c :: rest).length = 2
                · rw [if_pos hlen] at hs2
                  exact htriv hs2
                · rw [if_neg hlen] at hs2
                  exact htriv hs2
              · rw [if_neg h3] at hs2
                by_cases h4 : Tracker.pyUpper c = "GET_PEERS"
                · simp only [h4, if_true] at hs2
                  exact htriv hs2
                · rw [if_neg h4] at hs2
                  by_cases h5 : Tracker.pyUpper c = "KEEPALIVE"
                  · simp only [h5, if_true] at hs2
                    by_cases hlen : (c :: rest).length = 2
                    · rw [if_pos hlen] at hs2
                      cases hlk : Tracker.lookupPeer st ((c :: rest).getD 1 "") with
                      | some info =>
                          rw [hlk] at hs2
                          dsimp only at hs2
                          by_cases hq : pid = (c :: rest).getD 1 ""
                          · rw [← hq] at hlk
                            rw [hlkn] at hlk
                            cases hlk
                          · unfold Tracker.scoreOf at hs2
                            rw [Tracker.lookupPeer_setPeer_ne st _ hq, hlkn] at hs2
                            simp at hs2
                      | none =>
                          rw [hlk] at hs2
                          dsimp only at hs2
                          exact htriv hs2
                    · rw [if_neg hlen] at hs2
                      exact htriv hs2
                  · rw [if_neg h5] at hs2
                    by_cases h6 : Tracker.pyUpper c = "INCREMENT_SCORE"
                    · simp only [h6, if_true] at hs2
                      by_cases hlen : (c :: rest).length = 3
                      · rw [if_pos hlen] at hs2
                        cases hp : Tracker.pyParseInt ((c :: rest).getD 2 "") with
                        | none =>
                            rw [hp] at hs2
                            dsimp only at hs2
                            exact htriv hs2
                        | some d =>
                            rw [hp] at hs2
                            dsimp only at hs2
                            cases hlk : Tracker.lookupPeer st ((c :: rest).getD 1 "") with
                            | some info =>
                                rw [hlk] at hs2
                                dsimp only at hs2
                                by_cases hq : pid = (c :: rest).getD 1 ""
                                · rw [← hq] at hlk
                                  rw [hlkn] at hlk
                                  cases hlk
                                · unfold Tracker.scoreOf at hs2
                                  rw [Tracker.lookupPeer_setPeer_ne st _ hq, hlkn] at hs2
                                  simp at hs2
                            | none =>
                                rw [hlk] at hs2
                                dsimp only at hs2
                                exact htriv hs2
                      · rw [if_neg hlen] at hs2
                        exact htriv hs2
                    · rw [if_neg h6] at hs2
                      exact htriv hs2

/-- C3 (amended): provided every INCREMENT_SCORE carries a nonnegative
delta — which the tracker does NOT enforce, but which is the only kind
the repository's own peer sends — every record's score starts at 0 when
created, stays a nonnegative integer along any operation sequence from
the empty registry, and is never decreased by any single operation. -/
theorem score_invariant (ops : List Tracker.TrackerOp)
    (hops : ops.all Tracker.opNonneg = true) :
    Tracker.allScoresNonneg (Tracker.runOps [] ops) = true
  ∧ (∀ st op pid s s2, Tracker.opNonneg op = true →
       (st.map Prod.fst).Nodup →
       Tracker.scoreOf st pid = some s →
       Tracker.scoreOf (Tracker.stepOp st op) pid = some s2 → s ≤ s2)
  ∧ (∀ st op pid s2, Tracker.scoreOf st pid = none →
       Tracker.scoreOf (Tracker.stepOp st op) pid = some s2 → s2 = 0) := by
  refine ⟨?_,
    fun st op pid s s2 hop hnd hs hs2 =>
      score_step_mono st op pid hop hnd s s2 hs hs2,
    fun st op pid s2 hs hs2 => score_created_zero st op pid s2 hs hs2⟩
  have main : ∀ (ops2 : List Tracker.TrackerOp) (st : Tracker.Registry),
      Tracker.allScoresNonneg st = true → ops2.all Tracker.opNonneg = true →
      Tracker.allScoresNonneg (Tracker.runOps st ops2) = true := by
    intro ops2
    induction ops2 with
    | nil =>
        intro st h _
        exact h
    | cons op rest ih =>
        intro st h hall
        rw [List.all_cons, Bool.and_eq_true] at hall
        unfold Tracker.runOps
        rw [List.foldl_cons]
        exact ih (Tracker.stepOp st op)
          (allScoresNonneg_step st op h hall.1) hall.2
  exact main ops [] rfl hops

/-- C3 (witness): register `PEER1` then increment by 100 and by 250; all
scores stay nonnegative and `PEER1` ends at the accumulated score
350. -/
theorem score_invariant_witness :
    Tracker.allScoresNonneg (Tracker.runOps [] c3Ops) = true
  ∧ Tracker.scoreOf (Tracker.runOps [] c3Ops) "PEER1" = some 350 :=
  ⟨(score_invariant c3Ops (by decide)).1, by decide⟩
